import Mathlib

/-!
# Verification of the pet-health-tracker core

A shallow embedding of the repository's core logic, translated from the
TypeScript source:

* `calculateDayStatus`, `updateDayStatus`, `getDayIssues`,
  `getTrendsSummary`, `getProblemDays` (server `status.ts`);
* `getOrCreateDailyRecord`, `updateDailyRecord`,
  `getEffectiveDefaultAmount`, `setDefaultAmount`, `getFullDayData`
  (server `db.ts`);

together with theorems settling the specification claims about them.

The SQLite database is modelled as lists of rows (`Store`); SQL `TEXT`
date comparison (byte-wise, which on `YYYY-MM-DD` strings is
chronological) is modelled by `strLe` on the character data of the
strings; SQL `datetime('now')` timestamps are passed in explicitly as a
`now` argument; `SELECT ... ORDER BY` is modelled by an insertion sort
on the row lists.
-/

namespace PetHealth

/-! ## Byte-wise string comparison (SQLite TEXT collation) -/

/-- Lexicographic comparison of character lists by code point, the
comparison SQLite applies to `TEXT` columns such as the `date` fields. -/
def charListLe : List Char → List Char → Bool
  | [], _ => true
  | _ :: _, [] => false
  | a :: as, b :: bs =>
    if a.toNat < b.toNat then true
    else if b.toNat < a.toNat then false
    else charListLe as bs

/-- `strLe a b` models SQL `a <= b` on `TEXT` values. -/
def strLe (a b : String) : Bool := charListLe a.data b.data

/-- `strLt a b` models SQL `a < b` on `TEXT` values. -/
def strLt (a b : String) : Bool := !(strLe b a)

theorem charListLe_refl (l : List Char) : charListLe l l = true := by
  induction l with
  | nil => rfl
  | cons a as ih => simp [charListLe, ih]

theorem charListLe_total (a b : List Char) :
    charListLe a b = true ∨ charListLe b a = true := by
  induction a generalizing b with
  | nil => left; rfl
  | cons x xs ih =>
    cases b with
    | nil => right; rfl
    | cons y ys =>
      by_cases h1 : x.toNat < y.toNat
      · left; simp [charListLe, h1]
      · by_cases h2 : y.toNat < x.toNat
        · right; simp [charListLe, h2]
        · rcases ih ys with h | h
          · left; simp [charListLe, h1, h2, h]
          · right; simp [charListLe, h1, h2, h]

theorem charListLe_trans {a b c : List Char} (hab : charListLe a b = true)
    (hbc : charListLe b c = true) : charListLe a c = true := by
  induction a generalizing b c with
  | nil => rfl
  | cons x xs ih =>
    cases b with
    | nil => simp [charListLe] at hab
    | cons y ys =>
      cases c with
      | nil => simp [charListLe] at hbc
      | cons z zs =>
        simp only [charListLe] at hab hbc ⊢
        by_cases h1 : x.toNat < y.toNat
        · by_cases h2 : y.toNat < z.toNat
          · simp [show x.toNat < z.toNat from Nat.lt_trans h1 h2]
          · by_cases h4 : z.toNat < y.toNat
            · simp [h2, h4] at hbc
            · have hyz : y.toNat = z.toNat := by omega
              simp [show x.toNat < z.toNat from hyz ▸ h1]
        · by_cases h3 : y.toNat < x.toNat
          · simp [h1, h3] at hab
          · have hxy : x.toNat = y.toNat := by omega
            simp [h1, h3] at hab
            by_cases h2 : y.toNat < z.toNat
            · simp [show x.toNat < z.toNat from hxy ▸ h2]
            · by_cases h4 : z.toNat < y.toNat
              · simp [h2, h4] at hbc
              · have hyz : y.toNat = z.toNat := by omega
                simp [h2, h4] at hbc
                simp [show ¬ x.toNat < z.toNat by omega,
                      show ¬ z.toNat < x.toNat by omega]
                exact ih hab hbc

theorem charListLe_antisymm {a b : List Char} (hab : charListLe a b = true)
    (hba : charListLe b a = true) : a = b := by
  induction a generalizing b with
  | nil =>
    cases b with
    | nil => rfl
    | cons y ys => simp [charListLe] at hba
  | cons x xs ih =>
    cases b with
    | nil => simp [charListLe] at hab
    | cons y ys =>
      simp only [charListLe] at hab hba
      by_cases h1 : x.toNat < y.toNat
      · simp [h1, Nat.not_lt_of_lt h1] at hba
      · by_cases h2 : y.toNat < x.toNat
        · simp [h1, h2] at hab
        · have hxyn : x.toNat = y.toNat := by omega
          have hxy : x = y := Char.eq_of_val_eq (UInt32.toNat.inj hxyn)
          simp [h1, h2] at hab hba
          exact hxy ▸ congrArg (x :: ·) (ih hab hba)

theorem strLe_refl (a : String) : strLe a a = true := charListLe_refl a.data

theorem strLe_total (a b : String) : strLe a b = true ∨ strLe b a = true :=
  charListLe_total a.data b.data

theorem strLe_trans {a b c : String} (hab : strLe a b = true)
    (hbc : strLe b c = true) : strLe a c = true :=
  charListLe_trans hab hbc

theorem strLe_antisymm {a b : String} (hab : strLe a b = true)
    (hba : strLe b a = true) : a = b :=
  congrArg String.mk (charListLe_antisymm hab hba)

theorem strLe_of_not_strLe {a b : String} (h : ¬ strLe a b = true) :
    strLe b a = true := (strLe_total a b).resolve_left h

/-! ## Day Status Classifier (`status.ts`, `calculateDayStatus`)

The source takes a `DayData` object `{vomited, peed, pooped, meals}`
where `meals` is a list of rows read only through their `status` field;
the embedding takes the three counts and the list of meal statuses. -/

/-- Translation of `calculateDayStatus` from `status.ts`. -/
def calculateDayStatus (vomited peed pooped : Nat)
    (meals : List String) : String :=
  let hasVomit : Bool := decide (vomited > 0)
  let noPee : Bool := peed == 0
  let noPoop : Bool := pooped == 0
  let hasMissedMeal : Bool := meals.any (fun s => s != "ate_fully")
  if hasVomit && (noPee || noPoop || hasMissedMeal) then "RED"
  else if noPee && noPoop then "RED"
  else if hasVomit then "ORANGE"
  else if noPee || noPoop then "ORANGE"
  else if hasMissedMeal then "ORANGE"
  else "GREEN"

/-- The classifier seen as a function of its four derived boolean flags. -/
def classifyFlags (hasVomit noPee noPoop hasMissedMeal : Bool) : String :=
  if hasVomit && (noPee || noPoop || hasMissedMeal) then "RED"
  else if noPee && noPoop then "RED"
  else if hasVomit then "ORANGE"
  else if noPee || noPoop then "ORANGE"
  else if hasMissedMeal then "ORANGE"
  else "GREEN"

theorem calculateDayStatus_eq_flags (v p q : Nat) (ms : List String) :
    calculateDayStatus v p q ms =
      classifyFlags (decide (v > 0)) (p == 0) (q == 0)
        (ms.any (fun s => s != "ate_fully")) := rfl

/-- Severity rank, `RED > ORANGE > GREEN`. -/
def sevRank : String → Nat
  | "RED" => 2
  | "ORANGE" => 1
  | _ => 0

/-- First-match evaluation of an ordered rule list, defaulting to GREEN. -/
def firstMatch : List (Bool × String) → String
  | [] => "GREEN"
  | (c, s) :: rest => if c then s else firstMatch rest

/-- The ordered rule list exactly as the specification words it. -/
def specRules (vomited peed pooped : Nat) (meals : List String) :
    List (Bool × String) :=
  [ (decide (vomited > 0) &&
      ((peed == 0) || (pooped == 0) ||
        meals.any (fun s => s != "ate_fully")), "RED"),
    ((peed == 0) && (pooped == 0), "RED"),
    (decide (vomited > 0), "ORANGE"),
    ((peed == 0) || (pooped == 0), "ORANGE"),
    (meals.any (fun s => s != "ate_fully"), "ORANGE") ]

theorem sev_flags_vomit_mono : ∀ np nq mm hv,
    sevRank (classifyFlags false np nq mm) ≤
      sevRank (classifyFlags hv np nq mm) := by decide

theorem sev_flags_pee_mono : ∀ hv nq mm,
    sevRank (classifyFlags hv false nq mm) ≤
      sevRank (classifyFlags hv true nq mm) := by decide

theorem sev_flags_poop_mono : ∀ hv np mm,
    sevRank (classifyFlags hv np false mm) ≤
      sevRank (classifyFlags hv np true mm) := by decide

theorem sev_flags_meal_mono : ∀ hv np nq b,
    sevRank (classifyFlags hv np nq b) ≤
      sevRank (classifyFlags hv np nq true) := by decide

theorem flags_red_of_no_elim : ∀ hv mm,
    classifyFlags hv true true mm = "RED" := by decide

/-- C1: for every input, `calculateDayStatus` returns the result of the
first matching rule of the ordered list RED/RED/ORANGE/ORANGE/ORANGE
with default GREEN, and an empty meal-status sequence is evaluated with
the missed-meal flag false (vacuous truth), so it never by itself
triggers RED or ORANGE. -/
theorem claim_C1_classifier_first_match :
    (∀ v p q ms, calculateDayStatus v p q ms =
       firstMatch (specRules v p q ms)) ∧
    (∀ v p q, calculateDayStatus v p q [] =
       classifyFlags (decide (v > 0)) (p == 0) (q == 0) false) := by
  constructor
  · intro v p q ms; rfl
  · intro v p q; rfl

/-- C5: the classifier is monotone in severity: zeroing the vomit count,
raising a zero pee or poop count to positive, or turning one
not-ate_fully meal status into ate_fully, never raises the severity
rank; and whenever both pee and poop counts are zero the result is RED
regardless of the other inputs. -/
theorem claim_C5_monotone_severity :
    (∀ v p q ms, sevRank (calculateDayStatus 0 p q ms) ≤
       sevRank (calculateDayStatus v p q ms)) ∧
    (∀ v q ms p', 0 < p' →
       sevRank (calculateDayStatus v p' q ms) ≤
         sevRank (calculateDayStatus v 0 q ms)) ∧
    (∀ v p ms q', 0 < q' →
       sevRank (calculateDayStatus v p q' ms) ≤
         sevRank (calculateDayStatus v p 0 ms)) ∧
    (∀ v p q pre post x, x ≠ "ate_fully" →
       sevRank (calculateDayStatus v p q (pre ++ "ate_fully" :: post)) ≤
         sevRank (calculateDayStatus v p q (pre ++ x :: post))) ∧
    (∀ v ms, calculateDayStatus v 0 0 ms = "RED") := by
  refine ⟨?_, ?_, ?_, ?_, ?_⟩
  · intro v p q ms
    rw [calculateDayStatus_eq_flags, calculateDayStatus_eq_flags]
    exact sev_flags_vomit_mono _ _ _ _
  · intro v q ms p' hp
    rw [calculateDayStatus_eq_flags, calculateDayStatus_eq_flags]
    have hbe : (p' == 0) = false := by
      simp [Nat.pos_iff_ne_zero.mp hp]
    rw [hbe]
    exact sev_flags_pee_mono _ _ _
  · intro v p ms q' hq
    rw [calculateDayStatus_eq_flags, calculateDayStatus_eq_flags]
    have hbe : (q' == 0) = false := by
      simp [Nat.pos_iff_ne_zero.mp hq]
    rw [hbe]
    exact sev_flags_poop_mono _ _ _
  · intro v p q pre post x hx
    rw [calculateDayStatus_eq_flags, calculateDayStatus_eq_flags]
    have hxb : (x != "ate_fully") = true := bne_iff_ne.mpr hx
    have h2 : ((pre ++ x :: post).any (fun s => s != "ate_fully")) = true := by
      simp [List.any_append, hxb]
    rw [h2]
    exact sev_flags_meal_mono _ _ _ _
  · intro v ms
    rw [calculateDayStatus_eq_flags]
    exact flags_red_of_no_elim _ _

/-- Witness for C5 at concrete inputs (spec §8 style examples). -/
theorem claim_C5_monotone_severity_witness :
    (sevRank (calculateDayStatus 1 3 2 []) ≤
       sevRank (calculateDayStatus 1 0 2 [])) ∧
    (sevRank (calculateDayStatus 1 2 3 []) ≤
       sevRank (calculateDayStatus 1 2 0 [])) ∧
    (sevRank (calculateDayStatus 0 1 1 (["ate_fully"] ++ "ate_fully" :: [])) ≤
       sevRank (calculateDayStatus 0 1 1 (["ate_fully"] ++ "skipped" :: []))) :=
  ⟨claim_C5_monotone_severity.2.1 1 2 [] 3 (by decide),
   claim_C5_monotone_severity.2.2.1 1 2 [] 3 (by decide),
   claim_C5_monotone_severity.2.2.2.1 0 1 1 ["ate_fully"] [] "skipped"
     (by decide)⟩

/-! ## Temporal Default Resolver (`db.ts`)

The `meal_default_history` table is modelled as a list of rows in
insertion order; the SQL `UNIQUE(meal_slot, effective_date)` constraint
is the `WFHistory` predicate, maintained by `setDefaultAmount`. -/

/-- A row of the `meal_default_history` table. -/
structure Version where
  meal_slot : Nat
  default_amount : Nat
  effective_date : String
  deriving Repr, DecidableEq

/-- The `WHERE meal_slot = ? AND effective_date <= ?` filter of
`getEffectiveDefaultAmount`. -/
def versionMatches (slot : Nat) (date : String) (v : Version) : Bool :=
  v.meal_slot == slot && strLe v.effective_date date

/-- The row produced by `ORDER BY effective_date DESC LIMIT 1` over the
filtered rows: a matching row with maximal effective date (under the
UNIQUE constraint the maximum is unique, so the SQL result is this row). -/
def bestVersion (hist : List Version) (slot : Nat) (date : String) :
    Option Version :=
  match hist with
  | [] => none
  | v :: rest =>
    match bestVersion rest slot date with
    | none => if versionMatches slot date v then some v else none
    | some b =>
      if versionMatches slot date v then
        if strLt b.effective_date v.effective_date then some v else some b
      else some b

/-- Translation of `getEffectiveDefaultAmount` from `db.ts`. -/
def getEffectiveDefaultAmount (hist : List Version) (mealSlot : Nat)
    (date : String) : Nat :=
  match bestVersion hist mealSlot date with
  | some r => r.default_amount
  | none => 0

/-- Translation of `setDefaultAmount` from `db.ts`: an
`INSERT ... ON CONFLICT(meal_slot, effective_date) DO UPDATE SET
default_amount = excluded.default_amount`. -/
def setDefaultAmount (hist : List Version) (mealSlot amount : Nat)
    (effectiveDate : String) : List Version :=
  if hist.any (fun v =>
      v.meal_slot == mealSlot && v.effective_date == effectiveDate) then
    hist.map (fun v =>
      if v.meal_slot == mealSlot && v.effective_date == effectiveDate then
        { v with default_amount := amount }
      else v)
  else hist ++ [⟨mealSlot, amount, effectiveDate⟩]

/-- A history built by an arbitrary sequence of `setDefaultAmount` calls
(slot, amount, effectiveDate) starting from the empty table. -/
def buildHistory (ops : List (Nat × Nat × String)) : List Version :=
  ops.foldl (fun h op => setDefaultAmount h op.1 op.2.1 op.2.2) []

/-- The UNIQUE key of a `meal_default_history` row. -/
def keyOf (v : Version) : Nat × String := (v.meal_slot, v.effective_date)

/-- The `UNIQUE(meal_slot, effective_date)` table constraint. -/
def WFHistory (hist : List Version) : Prop := (hist.map keyOf).Nodup

instance : DecidablePred WFHistory := fun hist =>
  inferInstanceAs (Decidable (hist.map keyOf).Nodup)

/-- The overwrite map of `setDefaultAmount` does not change row keys. -/
theorem keyOf_overwrite (s a : Nat) (e : String) (v : Version) :
    keyOf (if v.meal_slot == s && v.effective_date == e then
             { v with default_amount := a } else v) = keyOf v := by
  by_cases h : v.meal_slot == s && v.effective_date == e <;> simp [h, keyOf]

theorem wf_setDefaultAmount {hist : List Version} (hw : WFHistory hist)
    (s a : Nat) (e : String) : WFHistory (setDefaultAmount hist s a e) := by
  unfold setDefaultAmount
  by_cases hex : hist.any (fun v =>
      v.meal_slot == s && v.effective_date == e) = true
  · rw [if_pos hex]
    unfold WFHistory
    rw [List.map_map]
    rw [show ((keyOf ∘ fun v =>
        if v.meal_slot == s && v.effective_date == e then
          { v with default_amount := a } else v) = keyOf) from by
      funext v; exact keyOf_overwrite s a e v]
    exact hw
  · rw [if_neg hex]
    unfold WFHistory
    rw [List.map_append]
    apply List.Nodup.append hw (by simp)
    intro k hk hk2
    simp only [List.map_cons, List.map_nil, List.mem_singleton] at hk2
    subst hk2
    simp only [List.mem_map] at hk
    obtain ⟨v, hv, hkv⟩ := hk
    have : v.meal_slot == s && v.effective_date == e := by
      simp only [keyOf, Prod.mk.injEq] at hkv
      simp [hkv.1, hkv.2]
    exact hex (List.any_eq_true.mpr ⟨v, hv, this⟩)

theorem wf_buildHistory (ops : List (Nat × Nat × String)) :
    WFHistory (buildHistory ops) := by
  have : ∀ h, WFHistory h →
      WFHistory (ops.foldl (fun h op => setDefaultAmount h op.1 op.2.1 op.2.2) h) := by
    induction ops with
    | nil => intro h hw; exact hw
    | cons op rest ih =>
      intro h hw
      exact ih _ (wf_setDefaultAmount hw op.1 op.2.1 op.2.2)
  exact this [] (by simp [WFHistory])

theorem bestVersion_eq_none_iff (hist : List Version) (slot : Nat)
    (date : String) :
    bestVersion hist slot date = none ↔
      ∀ v ∈ hist, versionMatches slot date v = false := by
  induction hist with
  | nil => simp [bestVersion]
  | cons v rest ih =>
    simp only [bestVersion]
    rcases hbr : bestVersion rest slot date with _ | br <;> dsimp only
    · by_cases hv : versionMatches slot date v = true
      · rw [if_pos hv]
        simp only [List.forall_mem_cons]
        constructor
        · intro h; cases h
        · intro h; rw [hv] at h; cases h.1
      · rw [if_neg hv]
        simp only [List.forall_mem_cons]
        constructor
        · intro _
          have hvf : versionMatches slot date v = false := by
            revert hv; cases versionMatches slot date v <;> simp
          exact ⟨hvf, ih.mp hbr⟩
        · intro _; trivial
    · constructor
      · intro h
        by_cases hv : versionMatches slot date v = true
        · rw [if_pos hv] at h
          by_cases hlt : strLt br.effective_date v.effective_date = true
          · rw [if_pos hlt] at h; cases h
          · rw [if_neg hlt] at h; cases h
        · rw [if_neg hv] at h; cases h
      · intro hall
        exfalso
        have hnone : bestVersion rest slot date = none :=
          ih.mpr (fun w hw => hall w (List.mem_cons_of_mem _ hw))
        rw [hbr] at hnone; cases hnone

theorem bestVersion_spec {hist : List Version} {slot : Nat} {date : String}
    {b : Version} (h : bestVersion hist slot date = some b) :
    b ∈ hist ∧ versionMatches slot date b = true ∧
      ∀ w ∈ hist, versionMatches slot date w = true →
        strLe w.effective_date b.effective_date = true := by
  induction hist generalizing b with
  | nil => cases h
  | cons v rest ih =>
    simp only [bestVersion] at h
    rcases hbr : bestVersion rest slot date with _ | br <;>
      rw [hbr] at h <;> dsimp only at h
    · by_cases hv : versionMatches slot date v = true
      · rw [if_pos hv] at h
        injection h with h; subst h
        refine ⟨List.mem_cons_self _ _, hv, ?_⟩
        intro w hw hwm
        rcases List.mem_cons.mp hw with rfl | hw
        · exact strLe_refl _
        · have := (bestVersion_eq_none_iff rest slot date).mp hbr w hw
          rw [this] at hwm; cases hwm
      · rw [if_neg hv] at h; cases h
    · obtain ⟨hbmem, hbm, hbmax⟩ := ih hbr
      by_cases hv : versionMatches slot date v = true
      · rw [if_pos hv] at h
        by_cases hlt : strLt br.effective_date v.effective_date = true
        · rw [if_pos hlt] at h
          injection h with h; subst h
          refine ⟨List.mem_cons_self _ _, hv, ?_⟩
          intro w hw hwm
          rcases List.mem_cons.mp hw with rfl | hw
          · exact strLe_refl _
          · have h1 := hbmax w hw hwm
            have h2 : strLe v.effective_date br.effective_date = false := by
              simpa [strLt] using hlt
            have h3 : strLe br.effective_date v.effective_date = true :=
              (strLe_total v.effective_date br.effective_date).resolve_left
                (by simp [h2])
            exact strLe_trans h1 h3
        · rw [if_neg hlt] at h
          injection h with h; subst h
          refine ⟨List.mem_cons_of_mem _ hbmem, hbm, ?_⟩
          intro w hw hwm
          rcases List.mem_cons.mp hw with rfl | hw
          · simpa [strLt] using hlt
          · exact hbmax w hw hwm
      · rw [if_neg hv] at h
        injection h with h; subst h
        refine ⟨List.mem_cons_of_mem _ hbmem, hbm, ?_⟩
        intro w hw hwm
        rcases List.mem_cons.mp hw with rfl | hw
        · exact absurd hwm hv
        · exact hbmax w hw hwm

theorem bestVersion_isSome_of_mem {hist : List Version} {slot : Nat}
    {date : String} {v : Version} (hv : v ∈ hist)
    (hm : versionMatches slot date v = true) :
    ∃ b, bestVersion hist slot date = some b := by
  rcases hb : bestVersion hist slot date with _ | b
  · exact absurd ((bestVersion_eq_none_iff hist slot date).mp hb v hv)
      (by simp [hm])
  · exact ⟨b, rfl⟩

theorem getEffective_eq_zero {hist : List Version} {slot : Nat}
    {date : String} (h : ∀ v ∈ hist, versionMatches slot date v = false) :
    getEffectiveDefaultAmount hist slot date = 0 := by
  unfold getEffectiveDefaultAmount
  rw [(bestVersion_eq_none_iff hist slot date).mpr h]

theorem versionMatches_elim {slot : Nat} {date : String} {v : Version}
    (h : versionMatches slot date v = true) :
    v.meal_slot = slot ∧ strLe v.effective_date date = true := by
  simpa [versionMatches] using h

theorem getEffective_eq_max {hist : List Version} {slot : Nat}
    {date : String} {b : Version} (hw : WFHistory hist) (hmem : b ∈ hist)
    (hmatch : versionMatches slot date b = true)
    (hmax : ∀ w ∈ hist, versionMatches slot date w = true →
       strLe w.effective_date b.effective_date = true) :
    getEffectiveDefaultAmount hist slot date = b.default_amount := by
  obtain ⟨b', hb'⟩ := bestVersion_isSome_of_mem hmem hmatch
  obtain ⟨hmem', hmatch', hmax'⟩ := bestVersion_spec hb'
  have he : b.effective_date = b'.effective_date :=
    strLe_antisymm (hmax' b hmem hmatch) (hmax b' hmem' hmatch')
  have hkey : keyOf b = keyOf b' := by
    simp [keyOf, (versionMatches_elim hmatch).1,
      (versionMatches_elim hmatch').1, he]
  have hbb' : b = b' := List.inj_on_of_nodup_map hw hmem hmem' hkey
  unfold getEffectiveDefaultAmount
  rw [hb', ← hbb']

theorem versionMatches_key {slot : Nat} {d : String} {w u : Version}
    (h : keyOf w = keyOf u) :
    versionMatches slot d w = versionMatches slot d u := by
  simp only [keyOf, Prod.mk.injEq] at h
  unfold versionMatches
  rw [h.1, h.2]

theorem versionMatches_intro {slot : Nat} {d : String} {v : Version}
    (hs : v.meal_slot = slot) (hle : strLe v.effective_date d = true) :
    versionMatches slot d v = true := by
  simp [versionMatches, hs, hle]

theorem versionMatches_eq_false {slot : Nat} {d : String} {v : Version}
    (h : v.meal_slot = slot → strLe v.effective_date d = false) :
    versionMatches slot d v = false := by
  unfold versionMatches
  by_cases hs : v.meal_slot = slot
  · rw [h hs]; simp
  · rw [beq_eq_false_iff_ne.mpr hs]; simp

theorem mem_setDefaultAmount {hist : List Version} {s a : Nat} {e : String}
    {w : Version} (hmem : w ∈ setDefaultAmount hist s a e) :
    (∃ u ∈ hist, keyOf w = keyOf u) ∨ w = ⟨s, a, e⟩ := by
  unfold setDefaultAmount at hmem
  by_cases hex : hist.any (fun v =>
      v.meal_slot == s && v.effective_date == e) = true
  · rw [if_pos hex] at hmem
    obtain ⟨u, hu, hgu⟩ := List.mem_map.mp hmem
    exact Or.inl ⟨u, hu, hgu ▸ (keyOf_overwrite s a e u).symm ▸ rfl⟩
  · rw [if_neg hex] at hmem
    rcases List.mem_append.mp hmem with h | h
    · exact Or.inl ⟨w, h, rfl⟩
    · exact Or.inr (List.mem_singleton.mp h)

theorem mem_setDefaultAmount_of_other {hist : List Version} {s a : Nat}
    {e : String} {u : Version} (hu : u ∈ hist)
    (hnk : ¬(u.meal_slot = s ∧ u.effective_date = e)) :
    u ∈ setDefaultAmount hist s a e := by
  unfold setDefaultAmount
  have hbeq : (u.meal_slot == s && u.effective_date == e) = false := by
    by_cases h1 : u.meal_slot = s
    · by_cases h2 : u.effective_date = e
      · exact absurd ⟨h1, h2⟩ hnk
      · simp [beq_eq_false_iff_ne.mpr h2]
    · simp [beq_eq_false_iff_ne.mpr h1]
  by_cases hex : hist.any (fun v =>
      v.meal_slot == s && v.effective_date == e) = true
  · rw [if_pos hex]
    have : (if u.meal_slot == s && u.effective_date == e then
        { u with default_amount := a } else u) = u := by rw [hbeq]; rfl
    exact this ▸ List.mem_map_of_mem _ hu
  · rw [if_neg hex]
    exact List.mem_append_left _ hu

theorem setDefaultAmount_upserted (hist : List Version) (s a : Nat)
    (e : String) :
    ∃ b ∈ setDefaultAmount hist s a e,
      b.meal_slot = s ∧ b.effective_date = e ∧ b.default_amount = a := by
  unfold setDefaultAmount
  by_cases hex : hist.any (fun v =>
      v.meal_slot == s && v.effective_date == e) = true
  · rw [if_pos hex]
    obtain ⟨u, hu, hbequ⟩ := List.any_eq_true.mp hex
    have h1 : u.meal_slot = s := beq_iff_eq.mp (Bool.and_elim_left hbequ)
    have h2 : u.effective_date = e := beq_iff_eq.mp (Bool.and_elim_right hbequ)
    refine ⟨{ u with default_amount := a }, ?_, h1, h2, rfl⟩
    have : (if u.meal_slot == s && u.effective_date == e then
        { u with default_amount := a } else u) =
        { u with default_amount := a } := by rw [hbequ]; rfl
    exact this ▸ List.mem_map_of_mem _ hu
  · rw [if_neg hex]
    exact ⟨⟨s, a, e⟩, List.mem_append_right _ (List.mem_singleton.mpr rfl),
      rfl, rfl, rfl⟩

theorem getEffective_setDefault_new {hist : List Version} {s a : Nat}
    {e d : String} (hw : WFHistory hist) (he : strLe e d = true)
    (hmax : ∀ w ∈ hist, w.meal_slot = s → strLe w.effective_date d = true →
       strLe w.effective_date e = true) :
    getEffectiveDefaultAmount (setDefaultAmount hist s a e) s d = a := by
  obtain ⟨b, hbmem, hbs, hbe, hba⟩ := setDefaultAmount_upserted hist s a e
  have hmain : getEffectiveDefaultAmount (setDefaultAmount hist s a e) s d =
      b.default_amount := by
    apply getEffective_eq_max (wf_setDefaultAmount hw s a e) hbmem
      (versionMatches_intro hbs (hbe ▸ he))
    intro w hwmem hwm
    obtain ⟨hws, hwle⟩ := versionMatches_elim hwm
    rw [hbe]
    rcases mem_setDefaultAmount hwmem with ⟨u, hu, hk⟩ | rfl
    · simp only [keyOf, Prod.mk.injEq] at hk
      rw [hk.2]
      exact hmax u hu (hk.1 ▸ hws) (hk.2 ▸ hwle)
    · exact strLe_refl _
  rw [hmain, hba]

theorem getEffective_setDefault_future {hist : List Version} {s a : Nat}
    {e d : String} (hw : WFHistory hist) (he : strLe e d = false) :
    getEffectiveDefaultAmount (setDefaultAmount hist s a e) s d =
      getEffectiveDefaultAmount hist s d := by
  rcases hb : bestVersion hist s d with _ | b
  · have hnone := (bestVersion_eq_none_iff hist s d).mp hb
    have hz : getEffectiveDefaultAmount hist s d = 0 :=
      getEffective_eq_zero hnone
    rw [hz]
    apply getEffective_eq_zero
    intro w hwmem
    rcases mem_setDefaultAmount hwmem with ⟨u, hu, hk⟩ | rfl
    · rw [versionMatches_key hk]
      exact hnone u hu
    · exact versionMatches_eq_false (fun _ => he)
  · obtain ⟨hbmem, hbm, hbmax⟩ := bestVersion_spec hb
    obtain ⟨hbs, hble⟩ := versionMatches_elim hbm
    have hbne : b.effective_date ≠ e := by
      intro heq; rw [heq] at hble; rw [hble] at he; cases he
    have hzold : getEffectiveDefaultAmount hist s d = b.default_amount := by
      unfold getEffectiveDefaultAmount; rw [hb]
    rw [hzold]
    apply getEffective_eq_max (wf_setDefaultAmount hw s a e)
      (mem_setDefaultAmount_of_other hbmem (fun hc => hbne hc.2)) hbm
    intro w hwmem hwm
    rcases mem_setDefaultAmount hwmem with ⟨u, hu, hk⟩ | rfl
    · have := hbmax u hu ((versionMatches_key hk) ▸ hwm)
      simp only [keyOf, Prod.mk.injEq] at hk
      rw [hk.2]; exact this
    · obtain ⟨_, hwle⟩ := versionMatches_elim hwm
      rw [hwle] at he; cases he

theorem getEffective_setDefault_shadowed {hist : List Version} {s a : Nat}
    {e d : String} {w₀ : Version} (hw : WFHistory hist) (hmem : w₀ ∈ hist)
    (hs : w₀.meal_slot = s) (hgt : strLe w₀.effective_date e = false)
    (hle : strLe w₀.effective_date d = true) :
    getEffectiveDefaultAmount (setDefaultAmount hist s a e) s d =
      getEffectiveDefaultAmount hist s d := by
  obtain ⟨b, hb⟩ := bestVersion_isSome_of_mem hmem (versionMatches_intro hs hle)
  obtain ⟨hbmem, hbm, hbmax⟩ := bestVersion_spec hb
  obtain ⟨hbs, hble⟩ := versionMatches_elim hbm
  have hw0b : strLe w₀.effective_date b.effective_date = true :=
    hbmax w₀ hmem (versionMatches_intro hs hle)
  have heb : strLe e b.effective_date = true := by
    have hew0 : strLe e w₀.effective_date = true :=
      (strLe_total w₀.effective_date e).resolve_left (by simp [hgt])
    exact strLe_trans hew0 hw0b
  have hbne : b.effective_date ≠ e := by
    intro heq
    rw [heq] at hw0b
    rw [hw0b] at hgt; cases hgt
  have hzold : getEffectiveDefaultAmount hist s d = b.default_amount := by
    unfold getEffectiveDefaultAmount; rw [hb]
  rw [hzold]
  apply getEffective_eq_max (wf_setDefaultAmount hw s a e)
    (mem_setDefaultAmount_of_other hbmem (fun hc => hbne hc.2)) hbm
  intro w hwmem hwm
  rcases mem_setDefaultAmount hwmem with ⟨u, hu, hk⟩ | rfl
  · have := hbmax u hu ((versionMatches_key hk) ▸ hwm)
    simp only [keyOf, Prod.mk.injEq] at hk
    rw [hk.2]; exact this
  · exact heb

/-- C3: over any version history built by `setDefaultAmount` insertions
in any order, `getEffectiveDefaultAmount` returns the amount of the
slot's version with the greatest effective date at or before the query
date, returns 0 when the slot has no version at or before the query
date, and a further insertion at effective date `e` changes the result
exactly for query dates `d` with `e ≤ d` that have no other version of
the slot in the interval `(e, d]` — there the result becomes the new
amount — and leaves the result at every other query date unchanged. -/
theorem claim_C3_resolver_point_in_time (ops : List (Nat × Nat × String))
    (slot : Nat) (d : String) :
    ((∀ v ∈ buildHistory ops, v.meal_slot = slot →
        strLe v.effective_date d = false) →
      getEffectiveDefaultAmount (buildHistory ops) slot d = 0) ∧
    (∀ b ∈ buildHistory ops, b.meal_slot = slot →
      strLe b.effective_date d = true →
      (∀ w ∈ buildHistory ops, w.meal_slot = slot →
         strLe w.effective_date d = true →
         strLe w.effective_date b.effective_date = true) →
      getEffectiveDefaultAmount (buildHistory ops) slot d =
        b.default_amount) ∧
    (∀ (a : Nat) (e : String),
      (strLe e d = true →
       (∀ w ∈ buildHistory ops, w.meal_slot = slot →
          strLe w.effective_date d = true →
          strLe w.effective_date e = true) →
       getEffectiveDefaultAmount
         (setDefaultAmount (buildHistory ops) slot a e) slot d = a) ∧
      (strLe e d = false →
       getEffectiveDefaultAmount
         (setDefaultAmount (buildHistory ops) slot a e) slot d =
         getEffectiveDefaultAmount (buildHistory ops) slot d) ∧
      (∀ w₀ ∈ buildHistory ops, w₀.meal_slot = slot →
        strLe w₀.effective_date e = false →
        strLe w₀.effective_date d = true →
        getEffectiveDefaultAmount
          (setDefaultAmount (buildHistory ops) slot a e) slot d =
          getEffectiveDefaultAmount (buildHistory ops) slot d)) := by
  have hw := wf_buildHistory ops
  refine ⟨?_, ?_, ?_⟩
  · intro h
    exact getEffective_eq_zero (fun v hv => versionMatches_eq_false (h v hv))
  · intro b hbmem hbs hble hmax
    apply getEffective_eq_max hw hbmem (versionMatches_intro hbs hble)
    intro w hwmem hwm
    obtain ⟨hws, hwle⟩ := versionMatches_elim hwm
    exact hmax w hwmem hws hwle
  · intro a e
    refine ⟨?_, ?_, ?_⟩
    · intro he hmax
      exact getEffective_setDefault_new hw he hmax
    · intro he
      exact getEffective_setDefault_future hw he
    · intro w₀ hmem hs hgt hle
      exact getEffective_setDefault_shadowed hw hmem hs hgt hle

/-- Witness for C3 at the spec §8 example history: versions
(slot 1, 20g, 2025-01-10) and (slot 1, 30g, 2025-02-01); resolving
2025-01-15 gives 20, resolving 2025-01-09 gives 0, and backfilling
(slot 1, 25g, 2025-01-20) changes 2025-01-25 to 25 while leaving
2025-02-05 at its old value. -/
theorem claim_C3_resolver_point_in_time_witness :
    getEffectiveDefaultAmount
      (buildHistory [(1, 20, "2025-01-10"), (1, 30, "2025-02-01")])
      1 "2025-01-09" = 0 ∧
    getEffectiveDefaultAmount
      (buildHistory [(1, 20, "2025-01-10"), (1, 30, "2025-02-01")])
      1 "2025-01-15" = 20 ∧
    getEffectiveDefaultAmount
      (setDefaultAmount
        (buildHistory [(1, 20, "2025-01-10"), (1, 30, "2025-02-01")])
        1 25 "2025-01-20") 1 "2025-01-25" = 25 ∧
    getEffectiveDefaultAmount
      (setDefaultAmount
        (buildHistory [(1, 20, "2025-01-10"), (1, 30, "2025-02-01")])
        1 25 "2025-01-20") 1 "2025-02-05" =
      getEffectiveDefaultAmount
        (buildHistory [(1, 20, "2025-01-10"), (1, 30, "2025-02-01")])
        1 "2025-02-05" :=
  ⟨(claim_C3_resolver_point_in_time
      [(1, 20, "2025-01-10"), (1, 30, "2025-02-01")] 1 "2025-01-09").1
      (by decide),
   (claim_C3_resolver_point_in_time
      [(1, 20, "2025-01-10"), (1, 30, "2025-02-01")] 1 "2025-01-15").2.1
      ⟨1, 20, "2025-01-10"⟩ (by decide) (by decide) (by decide)
      (by decide),
   ((claim_C3_resolver_point_in_time
      [(1, 20, "2025-01-10"), (1, 30, "2025-02-01")] 1 "2025-01-25").2.2
      25 "2025-01-20").1 (by decide) (by decide),
   (((claim_C3_resolver_point_in_time
      [(1, 20, "2025-01-10"), (1, 30, "2025-02-01")] 1 "2025-02-05").2.2
      25 "2025-01-20").2.2 ⟨1, 30, "2025-02-01"⟩ (by decide) (by decide)
      (by decide) (by decide))⟩

/-- The `(slot, effectiveDate)` UNIQUE-key test used by the upsert. -/
def keyMatch (s : Nat) (e : String) (v : Version) : Bool :=
  v.meal_slot == s && v.effective_date == e

theorem keyMatch_iff {s : Nat} {e : String} {v : Version} :
    keyMatch s e v = true ↔ keyOf v = (s, e) := by
  simp [keyMatch, keyOf, Prod.mk.injEq]

theorem countP_keyMatch_le_one {hist : List Version} (hw : WFHistory hist)
    (s : Nat) (e : String) : hist.countP (keyMatch s e) ≤ 1 := by
  induction hist with
  | nil => simp
  | cons v t ih =>
    unfold WFHistory at hw
    rw [List.map_cons, List.nodup_cons] at hw
    rw [List.countP_cons]
    by_cases hv : keyMatch s e v = true
    · have hz : t.countP (keyMatch s e) = 0 := by
        rw [List.countP_eq_zero]
        intro u hu hum
        exact hw.1 (List.mem_map.mpr ⟨u, hu,
          (keyMatch_iff.mp hum).trans (keyMatch_iff.mp hv).symm⟩)
      simp [hz, hv]
    · have : (keyMatch s e v = true → False) := hv
      simp only [Bool.eq_false_iff.mpr hv]
      simpa using ih hw.2

/-- C6: `setDefaultAmount` preserves the at-most-one-version-per-(slot,
effectiveDate) invariant: after the call exactly one version carries
that key and it carries the new amount; an existing key is overwritten
without growing the table, a fresh key adds exactly one row wherever
its effective date falls, and the version counts of all other keys are
untouched. -/
theorem claim_C6_setDefault_upsert_unique (hist : List Version) (s a : Nat)
    (e : String) (hw : WFHistory hist) :
    WFHistory (setDefaultAmount hist s a e) ∧
    (setDefaultAmount hist s a e).countP (keyMatch s e) = 1 ∧
    (∀ v ∈ setDefaultAmount hist s a e, keyMatch s e v = true →
       v.default_amount = a) ∧
    ((hist.any (keyMatch s e) = true →
       (setDefaultAmount hist s a e).length = hist.length) ∧
     (hist.any (keyMatch s e) = false →
       (setDefaultAmount hist s a e).length = hist.length + 1)) ∧
    (∀ (s' : Nat) (e' : String), ¬(s' = s ∧ e' = e) →
       (setDefaultAmount hist s a e).countP (keyMatch s' e') =
         hist.countP (keyMatch s' e')) := by
  have hover : ∀ v, keyMatch s e
      (if v.meal_slot == s && v.effective_date == e then
        { v with default_amount := a } else v) = keyMatch s e v := by
    intro v
    by_cases h : v.meal_slot == s && v.effective_date == e <;>
      simp [h, keyMatch]
  have hover' : ∀ (s' : Nat) (e' : String) (v : Version), keyMatch s' e'
      (if v.meal_slot == s && v.effective_date == e then
        { v with default_amount := a } else v) = keyMatch s' e' v := by
    intro s' e' v
    by_cases h : v.meal_slot == s && v.effective_date == e <;>
      simp [h, keyMatch]
  refine ⟨wf_setDefaultAmount hw s a e, ?_, ?_, ⟨?_, ?_⟩, ?_⟩
  · unfold setDefaultAmount
    by_cases hex : hist.any (fun v =>
        v.meal_slot == s && v.effective_date == e) = true
    · rw [if_pos hex, List.countP_map]
      have heq : ((keyMatch s e) ∘ fun v =>
          if v.meal_slot == s && v.effective_date == e then
            { v with default_amount := a } else v) = keyMatch s e := by
        funext v; exact hover v
      rw [heq]
      have hpos : 0 < hist.countP (keyMatch s e) := by
        rw [List.countP_pos_iff]
        obtain ⟨u, hu, hum⟩ := List.any_eq_true.mp hex
        exact ⟨u, hu, hum⟩
      exact Nat.le_antisymm (countP_keyMatch_le_one hw s e) hpos
    · rw [if_neg hex, List.countP_append]
      have hz : hist.countP (keyMatch s e) = 0 := by
        rw [List.countP_eq_zero]
        intro u hu hum
        exact hex (List.any_eq_true.mpr ⟨u, hu, hum⟩)
      have hone : List.countP (keyMatch s e) [(⟨s, a, e⟩ : Version)] = 1 := by
        simp [List.countP_cons, keyMatch]
      rw [hz, hone]
  · intro v hv hvm
    unfold setDefaultAmount at hv
    by_cases hex : hist.any (fun v =>
        v.meal_slot == s && v.effective_date == e) = true
    · rw [if_pos hex] at hv
      obtain ⟨u, hu, hgu⟩ := List.mem_map.mp hv
      by_cases hum : (u.meal_slot == s && u.effective_date == e) = true
      · rw [if_pos hum] at hgu
        rw [← hgu]
      · rw [if_neg hum] at hgu
        subst hgu
        exact absurd hvm (by simpa [keyMatch] using hum)
    · rw [if_neg hex] at hv
      rcases List.mem_append.mp hv with h | h
      · exact absurd (List.any_eq_true.mpr ⟨v, h, hvm⟩) hex
      · rw [List.mem_singleton.mp h]
  · intro hex
    have hex' : hist.any (fun v =>
        v.meal_slot == s && v.effective_date == e) = true := hex
    unfold setDefaultAmount
    rw [if_pos hex', List.length_map]
  · intro hex
    have hex' : hist.any (fun v =>
        v.meal_slot == s && v.effective_date == e) = false := hex
    unfold setDefaultAmount
    rw [if_neg (by simp [hex']), List.length_append, List.length_singleton]
  · intro s' e' hne
    unfold setDefaultAmount
    by_cases hex : hist.any (fun v =>
        v.meal_slot == s && v.effective_date == e) = true
    · rw [if_pos hex, List.countP_map]
      have heq : ((keyMatch s' e') ∘ fun v =>
          if v.meal_slot == s && v.effective_date == e then
            { v with default_amount := a } else v) = keyMatch s' e' := by
        funext v; exact hover' s' e' v
      rw [heq]
    · rw [if_neg hex, List.countP_append]
      have hkm : keyMatch s' e' (⟨s, a, e⟩ : Version) = false := by
        by_cases h1 : s = s'
        · have h2 : ¬ e = e' := fun h => hne ⟨h1.symm, h.symm⟩
          simp [keyMatch, h2]
        · simp [keyMatch, h1]
      simp [List.countP_cons, hkm]

/-- Witness for C6: overwriting the existing (slot 1, 2025-01-10)
version leaves exactly one version of that key and does not grow the
table. -/
theorem claim_C6_setDefault_upsert_unique_witness :
    (setDefaultAmount
       (buildHistory [(1, 20, "2025-01-10"), (1, 30, "2025-02-01")])
       1 40 "2025-01-10").countP (keyMatch 1 "2025-01-10") = 1 ∧
    (setDefaultAmount
       (buildHistory [(1, 20, "2025-01-10"), (1, 30, "2025-02-01")])
       1 40 "2025-01-10").length =
      (buildHistory [(1, 20, "2025-01-10"), (1, 30, "2025-02-01")]).length :=
  ⟨(claim_C6_setDefault_upsert_unique
      (buildHistory [(1, 20, "2025-01-10"), (1, 30, "2025-02-01")])
      1 40 "2025-01-10" (by decide)).2.1,
   (claim_C6_setDefault_upsert_unique
      (buildHistory [(1, 20, "2025-01-10"), (1, 30, "2025-02-01")])
      1 40 "2025-01-10" (by decide)).2.2.2.1.1 (by decide)⟩

/-! ## Observation Store (`db.ts` schema, tables as lists of rows)

`now` parameters stand for SQLite's `datetime('now')`. -/

/-- A row of the `daily_records` table. -/
structure DailyRecord where
  id : Nat
  date : String
  teeth_brushed : Nat
  teeth_comment : Option String
  vomited : Nat
  vomited_comment : Option String
  peed : Nat
  peed_comment : Option String
  pooped : Nat
  pooped_comment : Option String
  drank : Nat
  drank_comment : Option String
  daily_notes : Option String
  day_status : String
  created_at : String
  updated_at : String
  deriving Repr, DecidableEq

/-- A row of the `meal_entries` table. -/
structure MealEntry where
  id : Nat
  date : String
  meal_slot : Nat
  status : String
  actual_amount : Option Nat
  comment : Option String
  deriving Repr, DecidableEq

/-- A row of the `medications` table. -/
structure Medication where
  id : Nat
  name : String
  time_label : String
  is_active : Nat
  sort_order : Nat
  deriving Repr, DecidableEq

/-- A row of the `medication_entries` table. -/
structure MedicationEntry where
  id : Nat
  date : String
  medication_id : Nat
  taken : Nat
  comment : Option String
  deriving Repr, DecidableEq

/-- A row of the `meal_config` table. -/
structure MealConfig where
  id : Nat
  meal_slot : Nat
  label : String
  default_amount : Nat
  deriving Repr, DecidableEq

/-- The SQLite database. -/
structure Store where
  daily_records : List DailyRecord
  meal_entries : List MealEntry
  medications : List Medication
  medication_entries : List MedicationEntry
  meal_config : List MealConfig
  meal_default_history : List Version
  deriving Repr, DecidableEq

/-- The empty database (fresh schema). -/
def emptyStore : Store := ⟨[], [], [], [], [], []⟩

/-- `SELECT ... FROM daily_records WHERE date = ?` with `.get` (first
matching row). -/
def getDailyRecord (st : Store) (date : String) : Option DailyRecord :=
  st.daily_records.find? (fun r => r.date == date)

/-- `SELECT status FROM meal_entries WHERE date = ?` with `.all`. -/
def mealStatusesFor (st : Store) (date : String) : List String :=
  (st.meal_entries.filter (fun m => m.date == date)).map (fun m => m.status)

/-- SQL `ORDER BY`: insertion sort with a boolean comparison. -/
def insertSorted {α : Type} (le : α → α → Bool) (x : α) :
    List α → List α
  | [] => [x]
  | y :: ys => if le x y then x :: y :: ys else y :: insertSorted le x ys

/-- SQL `ORDER BY`: sort a row list by a boolean comparison. -/
def sortBy {α : Type} (le : α → α → Bool) : List α → List α
  | [] => []
  | x :: xs => insertSorted le x (sortBy le xs)

/-- SQL `date BETWEEN ? AND ?` on TEXT dates. -/
def inRange (startDate endDate d : String) : Bool :=
  strLe startDate d && strLe d endDate

/-! ## Day status update and issue derivation (`status.ts`) -/

/-- Translation of `updateDayStatus` from `status.ts`: recompute the
status from the stored raw counts and meal statuses and write it back;
when the date has no daily record, return GREEN without touching the
store. -/
def updateDayStatus (st : Store) (date : String) : Store × String :=
  match getDailyRecord st date with
  | none => (st, "GREEN")
  | some r =>
    let status := calculateDayStatus r.vomited r.peed r.pooped
      (mealStatusesFor st date)
    ({ st with daily_records := st.daily_records.map (fun x =>
        if x.date == date then { x with day_status := status } else x) },
     status)

/-- The `mealLabels` array of `getDayIssues`. -/
def mealLabels : List String := ["", "morning", "day", "evening", "night"]

/-- Translation of `getDayIssues` from `status.ts`. Indexing
`mealLabels` out of range yields `undefined` in the source, which a
template literal renders as the text "undefined". -/
def getDayIssues (st : Store) (date : String) : List String :=
  match getDailyRecord st date with
  | none => []
  | some r =>
    let meals := st.meal_entries.filter (fun m => m.date == date)
    (if r.vomited > 0 then ["Vomit: " ++ toString r.vomited] else []) ++
    (if r.peed = 0 then ["No pee"] else []) ++
    (if r.pooped = 0 then ["No poop"] else []) ++
    (meals.filter (fun m => m.status != "ate_fully")).map (fun m =>
      "Meal " ++ toString m.meal_slot ++ " (" ++
        mealLabels.getD m.meal_slot "undefined" ++ ") not eaten fully")

/-! ## Trends Aggregator (`status.ts`) -/

/-- The `statusCounts` object of the trends summary. -/
structure StatusCounts where
  RED : Nat
  ORANGE : Nat
  GREEN : Nat
  deriving Repr, DecidableEq

/-- The `vomiting` object of the trends summary. -/
structure VomitingStats where
  daysWithVomit : Nat
  daysWithoutVomit : Int
  deriving Repr, DecidableEq

/-- The `peePoop` object of the trends summary. -/
structure PeePoopStats where
  peeDays : Nat
  poopDays : Nat
  noPeeDates : List String
  noPoopDates : List String
  deriving Repr, DecidableEq

/-- The `meals` object of the trends summary. -/
structure MealTotals where
  total : Nat
  missed : Nat
  deriving Repr, DecidableEq

/-- One point of a per-day chart series. -/
structure ChartPoint where
  date : String
  value : Nat
  deriving Repr, DecidableEq

/-- The `charts` object of the trends summary. -/
structure ChartsData where
  dailyMeals : List ChartPoint
  dailyVomit : List ChartPoint
  deriving Repr, DecidableEq

/-- The value returned by `getTrendsSummary`. -/
structure TrendsSummary where
  periodStart : String
  periodEnd : String
  totalDays : Nat
  statusCounts : StatusCounts
  vomiting : VomitingStats
  peePoop : PeePoopStats
  meals : MealTotals
  charts : ChartsData
  deriving Repr, DecidableEq

/-- Translation of `getTrendsSummary` from `status.ts`. Each SQL
aggregate is modelled over the in-range rows: `COUNT(DISTINCT date)` as
dedup-then-length, `GROUP BY day_status` plus `find` as a per-status
`countP` (an absent group yields 0 via `?? 0`), `GROUP BY date` for the
meal chart as dedup-sort-then-count. -/
def getTrendsSummary (st : Store) (startDate endDate : String) :
    TrendsSummary :=
  let rows := st.daily_records.filter (fun r => inRange startDate endDate r.date)
  let mealRows := st.meal_entries.filter (fun m => inRange startDate endDate m.date)
  let totalDays := ((rows.map (fun r => r.date)).dedup).length
  { periodStart := startDate
    periodEnd := endDate
    totalDays := totalDays
    statusCounts :=
      { RED := rows.countP (fun r => r.day_status == "RED")
        ORANGE := rows.countP (fun r => r.day_status == "ORANGE")
        GREEN := rows.countP (fun r => r.day_status == "GREEN") }
    vomiting :=
      { daysWithVomit := rows.countP (fun r => decide (r.vomited > 0))
        daysWithoutVomit := (totalDays : Int) -
          (rows.countP (fun r => decide (r.vomited > 0)) : Int) }
    peePoop :=
      { peeDays := rows.countP (fun r => decide (r.peed > 0))
        poopDays := rows.countP (fun r => decide (r.pooped > 0))
        noPeeDates := (sortBy (fun a b => strLe b.date a.date)
          (rows.filter (fun r => r.peed == 0))).map (fun r => r.date)
        noPoopDates := (sortBy (fun a b => strLe b.date a.date)
          (rows.filter (fun r => r.pooped == 0))).map (fun r => r.date) }
    meals :=
      { total := mealRows.length
        missed := mealRows.countP (fun m => m.status != "ate_fully") }
    charts :=
      { dailyMeals := (sortBy strLe ((mealRows.map (fun m => m.date)).dedup)).map
          (fun d => { date := d, value := (mealRows.filter
            (fun m => m.date == d)).countP (fun m => m.status != "ate_fully") })
        dailyVomit := (sortBy (fun a b => strLe a.date b.date) rows).map
          (fun r => { date := r.date, value := r.vomited }) } }

/-- One element of the `getProblemDays` result. -/
structure ProblemDay where
  date : String
  status : String
  issues : List String
  deriving Repr, DecidableEq

/-- Translation of `getProblemDays` from `status.ts`: the in-range rows
whose stored `day_status` is not GREEN, newest date first, annotated via
`getDayIssues`. -/
def getProblemDays (st : Store) (startDate endDate : String) :
    List ProblemDay :=
  let rows := st.daily_records.filter (fun r =>
    inRange startDate endDate r.date && r.day_status != "GREEN")
  (sortBy (fun a b => strLe b.date a.date) rows).map (fun r =>
    { date := r.date, status := r.day_status, issues := getDayIssues st r.date })

/-! ## Write path and day view (`db.ts`) -/

/-- The next `AUTOINCREMENT` id for `daily_records`. -/
def nextDailyId (st : Store) : Nat :=
  (st.daily_records.map (fun r => r.id)).foldr max 0 + 1

/-- Translation of `getOrCreateDailyRecord` from `db.ts`: insert a row
with the schema's column defaults (all counts 0, `day_status 'GREEN'`)
when the date has none, then return the row. -/
def getOrCreateDailyRecord (st : Store) (date now : String) :
    Store × DailyRecord :=
  match getDailyRecord st date with
  | some r => (st, r)
  | none =>
    let r : DailyRecord :=
      { id := nextDailyId st, date := date
        teeth_brushed := 0, teeth_comment := none
        vomited := 0, vomited_comment := none
        peed := 0, peed_comment := none
        pooped := 0, pooped_comment := none
        drank := 0, drank_comment := none
        daily_notes := none, day_status := "GREEN"
        created_at := now, updated_at := now }
    ({ st with daily_records := st.daily_records ++ [r] }, r)

/-- A `Partial<DailyRecord>` patch: every field of the TS `DailyRecord`
interface made optional (the interface carries no timestamp columns). -/
structure RecordPatch where
  id : Option Nat := none
  date : Option String := none
  teeth_brushed : Option Nat := none
  teeth_comment : Option (Option String) := none
  vomited : Option Nat := none
  vomited_comment : Option (Option String) := none
  peed : Option Nat := none
  peed_comment : Option (Option String) := none
  pooped : Option Nat := none
  pooped_comment : Option (Option String) := none
  drank : Option Nat := none
  drank_comment : Option (Option String) := none
  daily_notes : Option (Option String) := none
  day_status : Option String := none
  deriving Repr, DecidableEq

/-- Whether the patch names any field other than `id` and `date` — the
`fields.length === 0` early-return test of `updateDailyRecord` after
filtering those two out. -/
def hasUpdatableField (p : RecordPatch) : Bool :=
  p.teeth_brushed.isSome || p.teeth_comment.isSome ||
  p.vomited.isSome || p.vomited_comment.isSome ||
  p.peed.isSome || p.peed_comment.isSome ||
  p.pooped.isSome || p.pooped_comment.isSome ||
  p.drank.isSome || p.drank_comment.isSome ||
  p.daily_notes.isSome || p.day_status.isSome

/-- The `SET f = ?` list of `updateDailyRecord`: every patch field
except `id` and `date`, plus `updated_at = datetime('now')`. -/
def applyPatch (r : DailyRecord) (p : RecordPatch) (now : String) :
    DailyRecord :=
  { r with
    teeth_brushed := p.teeth_brushed.getD r.teeth_brushed
    teeth_comment := p.teeth_comment.getD r.teeth_comment
    vomited := p.vomited.getD r.vomited
    vomited_comment := p.vomited_comment.getD r.vomited_comment
    peed := p.peed.getD r.peed
    peed_comment := p.peed_comment.getD r.peed_comment
    pooped := p.pooped.getD r.pooped
    pooped_comment := p.pooped_comment.getD r.pooped_comment
    drank := p.drank.getD r.drank
    drank_comment := p.drank_comment.getD r.drank_comment
    daily_notes := p.daily_notes.getD r.daily_notes
    day_status := p.day_status.getD r.day_status
    updated_at := now }

/-- Translation of `updateDailyRecord` from `db.ts`. -/
def updateDailyRecord (st : Store) (date : String) (p : RecordPatch)
    (now : String) : Store :=
  let st1 := (getOrCreateDailyRecord st date now).1
  if hasUpdatableField p then
    { st1 with daily_records := st1.daily_records.map (fun x =>
        if x.date == date then applyPatch x p now else x) }
  else st1

/-- Translation of `getMedications` from `db.ts`. -/
def getMedications (st : Store) (includeInactive : Bool) :
    List Medication :=
  if includeInactive then
    sortBy (fun a b => decide (a.sort_order ≤ b.sort_order)) st.medications
  else
    sortBy (fun a b => decide (a.sort_order ≤ b.sort_order))
      (st.medications.filter (fun m => m.is_active == 1))

/-- Translation of `getMedicationEntries` from `db.ts` (the JOIN keeps
entries whose medication exists; the joined name/label columns are not
read by `getFullDayData` and are left on the `medications` side). -/
def getMedicationEntries (st : Store) (date : String) :
    List MedicationEntry :=
  st.medication_entries.filter (fun en => en.date == date &&
    st.medications.any (fun m => m.id == en.medication_id))

/-- Translation of `getMealConfig` from `db.ts`. -/
def getMealConfig (st : Store) : List MealConfig :=
  sortBy (fun a b => decide (a.meal_slot ≤ b.meal_slot)) st.meal_config

/-- Translation of `getMealEntries` from `db.ts`. -/
def getMealEntries (st : Store) (date : String) : List MealEntry :=
  sortBy (fun a b => decide (a.meal_slot ≤ b.meal_slot))
    (st.meal_entries.filter (fun m => m.date == date))

/-- One element of the `medications` list of the day view. -/
structure MedicationWithStatus where
  id : Nat
  name : String
  time_label : String
  is_active : Nat
  sort_order : Nat
  taken : Nat
  comment : Option String
  deriving Repr, DecidableEq

/-- One element of the `meals` list of the day view. -/
structure MealWithStatus where
  meal_slot : Nat
  label : String
  default_amount : Nat
  status : String
  actual_amount : Option Nat
  comment : Option String
  deriving Repr, DecidableEq

/-- The value returned by `getFullDayData` (`{...record, date,
medications, meals}`). -/
structure FullDayData where
  record : DailyRecord
  date : String
  medications : List MedicationWithStatus
  meals : List MealWithStatus
  deriving Repr, DecidableEq

/-- Translation of `getFullDayData` from `db.ts`; returns the store as
changed by the lazy record creation together with the response. -/
def getFullDayData (st : Store) (date now : String) :
    Store × FullDayData :=
  let st1 := (getOrCreateDailyRecord st date now).1
  let record := (getOrCreateDailyRecord st date now).2
  let medications := getMedications st1 false
  let medicationEntries := getMedicationEntries st1 date
  let mealConfig := getMealConfig st1
  let mealEntries := getMealEntries st1 date
  let medicationsWithStatus := medications.map (fun med =>
    let entry := medicationEntries.find? (fun en => en.medication_id == med.id)
    { id := med.id, name := med.name, time_label := med.time_label
      is_active := med.is_active, sort_order := med.sort_order
      taken := (entry.map (fun en => en.taken)).getD 0
      comment := entry.bind (fun en => en.comment) : MedicationWithStatus })
  let mealsWithStatus := mealConfig.map (fun config =>
    let entry := mealEntries.find? (fun en => en.meal_slot == config.meal_slot)
    { meal_slot := config.meal_slot, label := config.label
      default_amount := getEffectiveDefaultAmount st1.meal_default_history
        config.meal_slot date
      status := (entry.map (fun en => en.status)).getD "ate_fully"
      actual_amount := entry.bind (fun en => en.actual_amount)
      comment := entry.bind (fun en => en.comment) : MealWithStatus })
  (st1, { record := record, date := date,
          medications := medicationsWithStatus, meals := mealsWithStatus })

/-! ## Generic facts about the sort and query embeddings -/

theorem mem_insertSorted {α : Type} (le : α → α → Bool) (x a : α)
    (l : List α) : a ∈ insertSorted le x l ↔ a = x ∨ a ∈ l := by
  induction l with
  | nil => simp [insertSorted]
  | cons y ys ih =>
    unfold insertSorted
    by_cases h : le x y = true
    · rw [if_pos h]
      simp only [List.mem_cons]
    · rw [if_neg h]
      simp only [List.mem_cons, ih]
      tauto

theorem mem_sortBy {α : Type} (le : α → α → Bool) (a : α) (l : List α) :
    a ∈ sortBy le l ↔ a ∈ l := by
  induction l with
  | nil => simp [sortBy]
  | cons x xs ih =>
    simp [sortBy, mem_insertSorted, ih]

theorem pairwise_insertSorted {α : Type} (le : α → α → Bool)
    (htot : ∀ a b, le a b = true ∨ le b a = true)
    (htrans : ∀ a b c, le a b = true → le b c = true → le a c = true)
    (x : α) (l : List α) (hl : l.Pairwise (fun a b => le a b = true)) :
    (insertSorted le x l).Pairwise (fun a b => le a b = true) := by
  induction l with
  | nil => simp [insertSorted]
  | cons y ys ih =>
    rw [List.pairwise_cons] at hl
    unfold insertSorted
    by_cases h : le x y = true
    · rw [if_pos h]
      refine List.Pairwise.cons ?_ (List.Pairwise.cons hl.1 hl.2)
      intro b hb
      rcases List.mem_cons.mp hb with rfl | hb
      · exact h
      · exact htrans x y b h (hl.1 b hb)
    · rw [if_neg h]
      refine List.Pairwise.cons ?_ (ih hl.2)
      intro b hb
      rcases (mem_insertSorted le x b ys).mp hb with hbx | hb
      · rw [hbx]
        exact (htot x y).resolve_left h
      · exact hl.1 b hb

theorem pairwise_sortBy {α : Type} (le : α → α → Bool)
    (htot : ∀ a b, le a b = true ∨ le b a = true)
    (htrans : ∀ a b c, le a b = true → le b c = true → le a c = true)
    (l : List α) :
    (sortBy le l).Pairwise (fun a b => le a b = true) := by
  induction l with
  | nil => simp [sortBy]
  | cons x xs ih => exact pairwise_insertSorted le htot htrans x _ ih

/-- Definitional reading of the `totalDays` field. -/
theorem trends_totalDays (st : Store) (s e : String) :
    (getTrendsSummary st s e).totalDays =
      (((st.daily_records.filter (fun r => inRange s e r.date)).map
        (fun r => r.date)).dedup).length := rfl

/-- Definitional reading of the `statusCounts` buckets. -/
theorem trends_statusCounts (st : Store) (s e : String) :
    (getTrendsSummary st s e).statusCounts.RED =
      (st.daily_records.filter (fun r => inRange s e r.date)).countP
        (fun r => r.day_status == "RED") ∧
    (getTrendsSummary st s e).statusCounts.ORANGE =
      (st.daily_records.filter (fun r => inRange s e r.date)).countP
        (fun r => r.day_status == "ORANGE") ∧
    (getTrendsSummary st s e).statusCounts.GREEN =
      (st.daily_records.filter (fun r => inRange s e r.date)).countP
        (fun r => r.day_status == "GREEN") := ⟨rfl, rfl, rfl⟩

theorem countP_status_partition (l : List DailyRecord)
    (h : ∀ r ∈ l, r.day_status = "RED" ∨ r.day_status = "ORANGE" ∨
       r.day_status = "GREEN") :
    l.countP (fun r => r.day_status == "RED") +
      l.countP (fun r => r.day_status == "ORANGE") +
      l.countP (fun r => r.day_status == "GREEN") = l.length := by
  induction l with
  | nil => simp
  | cons r t ih =>
    have ht := ih (fun x hx => h x (List.mem_cons_of_mem _ hx))
    rw [List.countP_cons, List.countP_cons, List.countP_cons,
      List.length_cons]
    rcases h r (List.mem_cons_self _ _) with hr | hr | hr <;>
      rw [hr] <;> simp <;> omega

/-- C7: for every store whose daily records have unique dates and carry
one of the three status strings, the trends summary satisfies
RED + ORANGE + GREEN = totalDays over any range. -/
theorem claim_C7_status_counts_sum (st : Store) (s e : String)
    (hnd : (st.daily_records.map (fun r => r.date)).Nodup)
    (hst : ∀ r ∈ st.daily_records, r.day_status = "RED" ∨
       r.day_status = "ORANGE" ∨ r.day_status = "GREEN") :
    (getTrendsSummary st s e).statusCounts.RED +
      (getTrendsSummary st s e).statusCounts.ORANGE +
      (getTrendsSummary st s e).statusCounts.GREEN =
      (getTrendsSummary st s e).totalDays := by
  have hsub : ((st.daily_records.filter
      (fun r => inRange s e r.date)).map (fun r => r.date)).Nodup :=
    (List.Sublist.map _ (List.filter_sublist _)).nodup hnd
  rw [(trends_statusCounts st s e).1, (trends_statusCounts st s e).2.1,
    (trends_statusCounts st s e).2.2, trends_totalDays,
    List.dedup_eq_self.mpr hsub, List.length_map]
  exact countP_status_partition _
    (fun r hr => hst r (List.mem_of_mem_filter hr))

/-- A stored clean day (peed once, pooped once, no vomit) with the
matching status GREEN, used in concrete-input theorems. -/
def sampleRecord : DailyRecord :=
  { id := 1, date := "2025-01-01", teeth_brushed := 0,
    teeth_comment := none, vomited := 0, vomited_comment := none,
    peed := 1, peed_comment := none, pooped := 1,
    pooped_comment := none, drank := 0, drank_comment := none,
    daily_notes := none, day_status := "GREEN",
    created_at := "t0", updated_at := "t0" }

/-- A one-record store used in concrete-input theorems. -/
def sampleStore : Store := ⟨[sampleRecord], [], [], [], [], []⟩

/-- Witness for C7 on a one-record store. -/
theorem claim_C7_status_counts_sum_witness :
    (getTrendsSummary sampleStore "2025-01-01" "2025-01-31").statusCounts.RED +
      (getTrendsSummary sampleStore "2025-01-01" "2025-01-31").statusCounts.ORANGE +
      (getTrendsSummary sampleStore "2025-01-01" "2025-01-31").statusCounts.GREEN =
      (getTrendsSummary sampleStore "2025-01-01" "2025-01-31").totalDays :=
  claim_C7_status_counts_sum sampleStore "2025-01-01" "2025-01-31"
    (by decide) (by decide)

/-- The classification of a stored daily record recomputed from its raw
counts and meal statuses via the classifier. -/
def recomputedStatus (st : Store) (r : DailyRecord) : String :=
  calculateDayStatus r.vomited r.peed r.pooped (mealStatusesFor st r.date)

/-- C2 counterexample: starting from an empty store, the lazy record
creation of `getFullDayData` produces a state (reachable through the
repository operations alone) whose single record caches day_status
GREEN while the classifier recomputes RED from its raw zeros; on that
state `getTrendsSummary` puts the day in the GREEN bucket, not the RED
bucket, and `getProblemDays` omits it — both aggregators trust the
cached `day_status`, contradicting the claim that the cache is never
authoritative. -/
theorem claim_C2_aggregators_use_cache_counterexample :
    ((getDailyRecord (getFullDayData emptyStore "2025-01-01" "t0").1
        "2025-01-01").map (fun r => recomputedStatus
          (getFullDayData emptyStore "2025-01-01" "t0").1 r) =
      some "RED") ∧
    ((getDailyRecord (getFullDayData emptyStore "2025-01-01" "t0").1
        "2025-01-01").map (fun r => r.day_status) = some "GREEN") ∧
    (getTrendsSummary (getFullDayData emptyStore "2025-01-01" "t0").1
      "2025-01-01" "2025-01-31").statusCounts.GREEN = 1 ∧
    (getTrendsSummary (getFullDayData emptyStore "2025-01-01" "t0").1
      "2025-01-01" "2025-01-31").statusCounts.RED = 0 ∧
    getProblemDays (getFullDayData emptyStore "2025-01-01" "t0").1
      "2025-01-01" "2025-01-31" = [] := by decide

/-- C2 as amended: both aggregators read the stored `day_status`
column; their buckets and labels therefore agree with the per-day
recomputed classification exactly on stores whose cached statuses are
fresh — for every store in which each daily record's `day_status`
equals the classifier applied to its own raw counts and meal statuses,
the `statusCounts` buckets equal the recomputed per-day counts and
every problem day is labelled with its recomputed classification. -/
theorem claim_C2_aggregators_recompute_when_fresh (st : Store)
    (s e : String)
    (hfresh : ∀ r ∈ st.daily_records,
      r.day_status = recomputedStatus st r) :
    ((getTrendsSummary st s e).statusCounts.RED =
      (st.daily_records.filter (fun r => inRange s e r.date)).countP
        (fun r => recomputedStatus st r == "RED")) ∧
    ((getTrendsSummary st s e).statusCounts.ORANGE =
      (st.daily_records.filter (fun r => inRange s e r.date)).countP
        (fun r => recomputedStatus st r == "ORANGE")) ∧
    ((getTrendsSummary st s e).statusCounts.GREEN =
      (st.daily_records.filter (fun r => inRange s e r.date)).countP
        (fun r => recomputedStatus st r == "GREEN")) ∧
    (∀ p ∈ getProblemDays st s e, ∃ r ∈ st.daily_records,
       r.date = p.date ∧ p.status = recomputedStatus st r) := by
  have hcount : ∀ c : String,
      (st.daily_records.filter (fun r => inRange s e r.date)).countP
        (fun r => r.day_status == c) =
      (st.daily_records.filter (fun r => inRange s e r.date)).countP
        (fun r => recomputedStatus st r == c) := by
    intro c
    apply List.countP_congr
    intro r hr
    rw [hfresh r (List.mem_of_mem_filter hr)]
  refine ⟨?_, ?_, ?_, ?_⟩
  · rw [(trends_statusCounts st s e).1]; exact hcount "RED"
  · rw [(trends_statusCounts st s e).2.1]; exact hcount "ORANGE"
  · rw [(trends_statusCounts st s e).2.2]; exact hcount "GREEN"
  · intro p hp
    unfold getProblemDays at hp
    obtain ⟨r, hr, hrp⟩ := List.mem_map.mp hp
    have hrmem : r ∈ st.daily_records.filter (fun x =>
        inRange s e x.date && x.day_status != "GREEN") :=
      (mem_sortBy _ r _).mp hr
    have hrd : r ∈ st.daily_records := List.mem_of_mem_filter hrmem
    refine ⟨r, hrd, ?_, ?_⟩
    · rw [← hrp]
    · rw [← hrp]
      exact (hfresh r hrd).symm ▸ rfl

/-- Witness for the amended C2 on a fresh one-record store. -/
theorem claim_C2_aggregators_recompute_when_fresh_witness :
    (getTrendsSummary sampleStore "2025-01-01" "2025-01-31").statusCounts.GREEN =
      (sampleStore.daily_records.filter
        (fun r => inRange "2025-01-01" "2025-01-31" r.date)).countP
        (fun r => recomputedStatus sampleStore r == "GREEN") :=
  (claim_C2_aggregators_recompute_when_fresh sampleStore
    "2025-01-01" "2025-01-31" (by decide)).2.2.1

/-- C4 counterexample: `updateDayStatus` on an empty store returns
GREEN for a date with no daily record, while classifying a zero-valued
observation would give RED — the missing day is not classified as
zeros. -/
theorem claim_C4_missing_day_counterexample :
    (updateDayStatus emptyStore "2025-01-01").2 = "GREEN" ∧
    (updateDayStatus emptyStore "2025-01-01").2 ≠ "RED" ∧
    calculateDayStatus 0 0 0 [] = "RED" := by decide

/-- C4 as amended: for a date with no daily record, `updateDayStatus`
does not classify a zero-valued observation: it returns GREEN and
leaves the store unchanged; the rule-2 RED for zero pee and poop counts
applies only through the classifier, which indeed returns RED for any
zero-elimination input. -/
theorem claim_C4_missing_day_returns_green (st : Store) (d : String)
    (h : getDailyRecord st d = none) :
    updateDayStatus st d = (st, "GREEN") ∧
    (∀ v ms, calculateDayStatus v 0 0 ms = "RED") := by
  constructor
  · unfold updateDayStatus
    rw [h]
  · intro v ms
    rw [calculateDayStatus_eq_flags]
    exact flags_red_of_no_elim _ _

/-- Witness for the amended C4. -/
theorem claim_C4_missing_day_returns_green_witness :
    updateDayStatus emptyStore "2025-02-01" = (emptyStore, "GREEN") ∧
    calculateDayStatus 5 0 0 ["ate_fully"] = "RED" :=
  ⟨(claim_C4_missing_day_returns_green emptyStore "2025-02-01"
      (by decide)).1,
   (claim_C4_missing_day_returns_green emptyStore "2025-02-01"
      (by decide)).2 5 ["ate_fully"]⟩

theorem find?_map_of_pred {α : Type} (p : α → Bool) (h : α → α)
    (hp : ∀ x, p (h x) = p x) (l : List α) :
    (l.map h).find? p = (l.find? p).map h := by
  induction l with
  | nil => rfl
  | cons x xs ih =>
    rw [List.map_cons]
    by_cases hx : p x = true
    · rw [List.find?_cons_of_pos _ (by rw [hp x]; exact hx),
        List.find?_cons_of_pos _ hx]
      rfl
    · rw [List.find?_cons_of_neg _ (by rw [hp x]; exact hx),
        List.find?_cons_of_neg _ hx, ih]

/-- C9 counterexample: patching only the vomit count of 2025-01-01 also
rewrites that record's `updated_at` timestamp (to the current time),
although `updated_at` is not named in the patch — the merge does not
leave every unnamed field untouched. -/
theorem claim_C9_put_observation_counterexample :
    ((getDailyRecord (updateDailyRecord sampleStore "2025-01-01"
        { vomited := some 2 } "t1") "2025-01-01").map
      (fun r => r.updated_at)) = some "t1" ∧
    ((getDailyRecord sampleStore "2025-01-01").map
      (fun r => r.updated_at)) = some "t0" ∧
    ("t1" : String) ≠ "t0" := by decide

/-- C9 as amended: `updateDailyRecord` merges exactly the patch fields
other than `id` and `date` into the date's record — `id`, `date` and
`created_at` are never modified even when named, records of all other
dates are untouched, no record is added or removed, and a patch naming
only `id`/`date` changes nothing — except that `updated_at` is set to
the current time whenever at least one updatable field is named. -/
theorem claim_C9_put_observation_frame (st : Store) (d : String)
    (p : RecordPatch) (now : String) (r : DailyRecord)
    (hr : getDailyRecord st d = some r) :
    (hasUpdatableField p = true →
      getDailyRecord (updateDailyRecord st d p now) d =
        some (applyPatch r p now)) ∧
    (applyPatch r p now).id = r.id ∧
    (applyPatch r p now).date = r.date ∧
    (applyPatch r p now).created_at = r.created_at ∧
    (applyPatch r p now).teeth_brushed = p.teeth_brushed.getD r.teeth_brushed ∧
    (applyPatch r p now).teeth_comment = p.teeth_comment.getD r.teeth_comment ∧
    (applyPatch r p now).vomited = p.vomited.getD r.vomited ∧
    (applyPatch r p now).vomited_comment =
      p.vomited_comment.getD r.vomited_comment ∧
    (applyPatch r p now).peed = p.peed.getD r.peed ∧
    (applyPatch r p now).peed_comment = p.peed_comment.getD r.peed_comment ∧
    (applyPatch r p now).pooped = p.pooped.getD r.pooped ∧
    (applyPatch r p now).pooped_comment =
      p.pooped_comment.getD r.pooped_comment ∧
    (applyPatch r p now).drank = p.drank.getD r.drank ∧
    (applyPatch r p now).drank_comment = p.drank_comment.getD r.drank_comment ∧
    (applyPatch r p now).daily_notes = p.daily_notes.getD r.daily_notes ∧
    (applyPatch r p now).day_status = p.day_status.getD r.day_status ∧
    (applyPatch r p now).updated_at = now ∧
    (hasUpdatableField p = false → updateDailyRecord st d p now = st) ∧
    (∀ x ∈ st.daily_records, x.date ≠ d →
       x ∈ (updateDailyRecord st d p now).daily_records) ∧
    (updateDailyRecord st d p now).daily_records.length =
      st.daily_records.length := by
  have hst1 : (getOrCreateDailyRecord st d now).1 = st := by
    unfold getOrCreateDailyRecord
    rw [hr]
  have hup : updateDailyRecord st d p now =
      (if hasUpdatableField p then
        ({ st with daily_records := st.daily_records.map (fun x =>
            if x.date == d then applyPatch x p now else x) })
      else st) := by
    unfold updateDailyRecord
    rw [hst1]
  have hr' : st.daily_records.find? (fun x => x.date == d) = some r := hr
  have hrd0 := List.find?_some hr'
  have hrd : (r.date == d) = true := hrd0
  refine ⟨?_, rfl, rfl, rfl, rfl, rfl, rfl, rfl, rfl, rfl, rfl, rfl, rfl,
    rfl, rfl, rfl, rfl, ?_, ?_, ?_⟩
  · intro hpf
    rw [hup, if_pos hpf]
    unfold getDailyRecord
    show (st.daily_records.map (fun x =>
      if x.date == d then applyPatch x p now else x)).find?
        (fun x => x.date == d) = _
    rw [find?_map_of_pred (fun x => x.date == d)
      (fun x => if x.date == d then applyPatch x p now else x)
      (fun x => by by_cases hx : (x.date == d) = true <;> simp [hx, applyPatch])
      st.daily_records]
    rw [show st.daily_records.find? (fun x => x.date == d) = some r from hr]
    rw [Option.map_some']
    rw [if_pos hrd]
  · intro hpf
    rw [hup, if_neg (by simp [hpf])]
  · intro x hx hxd
    rw [hup]
    by_cases hpf : hasUpdatableField p = true
    · rw [if_pos hpf]
      show x ∈ st.daily_records.map (fun y =>
        if y.date == d then applyPatch y p now else y)
      have : (if x.date == d then applyPatch x p now else x) = x := by
        rw [if_neg (by simp [hxd])]
      exact this ▸ List.mem_map_of_mem _ hx
    · rw [if_neg hpf]
      exact hx
  · rw [hup]
    by_cases hpf : hasUpdatableField p = true
    · rw [if_pos hpf]
      exact List.length_map _ _
    · rw [if_neg hpf]

/-- Witness for the amended C9 at a concrete store and patch. -/
theorem claim_C9_put_observation_frame_witness :
    getDailyRecord (updateDailyRecord sampleStore "2025-01-01"
      { vomited := some 2 } "t1") "2025-01-01" =
      some (applyPatch sampleRecord { vomited := some 2 } "t1") ∧
    (applyPatch sampleRecord { vomited := some 2 } "t1").id =
      sampleRecord.id :=
  ⟨(claim_C9_put_observation_frame sampleStore "2025-01-01"
      { vomited := some 2 } "t1" sampleRecord (by decide)).1 (by decide),
   (claim_C9_put_observation_frame sampleStore "2025-01-01"
      { vomited := some 2 } "t1" sampleRecord (by decide)).2.1⟩

/-- The row inserted by the lazy creation of `getOrCreateDailyRecord`:
the schema's column defaults for the given date. -/
def freshRecord (st : Store) (d now : String) : DailyRecord :=
  { id := nextDailyId st, date := d, teeth_brushed := 0,
    teeth_comment := none, vomited := 0, vomited_comment := none,
    peed := 0, peed_comment := none, pooped := 0,
    pooped_comment := none, drank := 0, drank_comment := none,
    daily_notes := none, day_status := "GREEN",
    created_at := now, updated_at := now }

/-- C10: reading a day with no stored record through `getFullDayData`
inserts a persistent record with all counts zero and cached status
GREEN — which is not the classifier's output for those zeros (that
would be RED) — and from then on the date counts toward `totalDays`
and the GREEN bucket of `getTrendsSummary` while staying absent from
`getProblemDays`. -/
theorem claim_C10_lazy_record_creation (st : Store) (d now s e : String)
    (hnone : getDailyRecord st d = none)
    (hnd : (st.daily_records.map (fun r => r.date)).Nodup)
    (hin : inRange s e d = true) :
    (getDailyRecord (getFullDayData st d now).1 d =
      some (freshRecord st d now)) ∧
    ((freshRecord st d now).day_status = "GREEN" ∧
      calculateDayStatus (freshRecord st d now).vomited
        (freshRecord st d now).peed (freshRecord st d now).pooped
        (mealStatusesFor (getFullDayData st d now).1 d) = "RED") ∧
    ((getTrendsSummary (getFullDayData st d now).1 s e).totalDays =
      (getTrendsSummary st s e).totalDays + 1) ∧
    ((getTrendsSummary (getFullDayData st d now).1 s e).statusCounts.GREEN =
      (getTrendsSummary st s e).statusCounts.GREEN + 1) ∧
    ((getTrendsSummary (getFullDayData st d now).1 s e).statusCounts.RED =
      (getTrendsSummary st s e).statusCounts.RED) ∧
    ((getTrendsSummary (getFullDayData st d now).1 s e).statusCounts.ORANGE =
      (getTrendsSummary st s e).statusCounts.ORANGE) ∧
    (∀ p ∈ getProblemDays (getFullDayData st d now).1 s e,
      p.date ≠ d) := by
  have hfd : (getFullDayData st d now).1 =
      (getOrCreateDailyRecord st d now).1 := rfl
  have hoc : (getOrCreateDailyRecord st d now).1 =
      { st with daily_records :=
          st.daily_records ++ [freshRecord st d now] } := by
    unfold getOrCreateDailyRecord
    rw [hnone]
    rfl
  have hdr : (getFullDayData st d now).1.daily_records =
      st.daily_records ++ [freshRecord st d now] := by
    rw [hfd, hoc]
  have hnewdate : (freshRecord st d now).date = d := rfl
  have hdnotin : ∀ x ∈ st.daily_records, x.date ≠ d := by
    intro x hx
    have hx' := List.find?_eq_none.mp hnone x hx
    simpa using hx'
  have hfil : (st.daily_records ++ [freshRecord st d now]).filter
      (fun r => inRange s e r.date) =
      st.daily_records.filter (fun r => inRange s e r.date) ++
        [freshRecord st d now] := by
    rw [List.filter_append]
    congr 1
    simp [List.filter_cons, hnewdate, hin]
  have hmapnd : ((st.daily_records.filter
      (fun r => inRange s e r.date)).map (fun r => r.date)).Nodup :=
    (List.Sublist.map _ (List.filter_sublist _)).nodup hnd
  have hnotmem : d ∉ ((st.daily_records.filter
      (fun r => inRange s e r.date)).map (fun r => r.date)) := by
    intro hmem
    obtain ⟨x, hx, hxd⟩ := List.mem_map.mp hmem
    exact hdnotin x (List.mem_of_mem_filter hx) hxd
  have hnodup2 : (((st.daily_records.filter
      (fun r => inRange s e r.date)).map (fun r => r.date)) ++ [d]).Nodup := by
    rw [List.nodup_append]
    refine ⟨hmapnd, by simp, by simpa using hnotmem⟩
  refine ⟨?_, ⟨rfl, ?_⟩, ?_, ?_, ?_, ?_, ?_⟩
  · unfold getDailyRecord
    rw [hdr, List.find?_append]
    have h1 : st.daily_records.find? (fun r => r.date == d) = none := hnone
    rw [h1]
    have h2 : List.find? (fun r => r.date == d) [freshRecord st d now] =
        some (freshRecord st d now) :=
      List.find?_cons_of_pos _ (by rw [hnewdate]; exact beq_self_eq_true d)
    rw [h2]
    rfl
  · rw [calculateDayStatus_eq_flags]
    exact flags_red_of_no_elim _ _
  · rw [trends_totalDays, trends_totalDays, hdr, hfil, List.map_append,
      List.dedup_eq_self.mpr hmapnd]
    have hmap1 : List.map (fun r => r.date) [freshRecord st d now] = [d] := by
      simp [hnewdate]
    rw [hmap1, List.dedup_eq_self.mpr hnodup2, List.length_append]
    simp
  · rw [(trends_statusCounts _ s e).2.2, (trends_statusCounts st s e).2.2,
      hdr, hfil, List.countP_append]
    have : List.countP (fun r => r.day_status == "GREEN")
        [freshRecord st d now] = 1 := by
      rw [List.countP_cons]
      rw [show ((freshRecord st d now).day_status == "GREEN") = true from rfl]
      simp
    rw [this]
  · rw [(trends_statusCounts _ s e).1, (trends_statusCounts st s e).1,
      hdr, hfil, List.countP_append]
    have : List.countP (fun r => r.day_status == "RED")
        [freshRecord st d now] = 0 := by
      rw [List.countP_cons]
      rw [show ((freshRecord st d now).day_status == "RED") = false from rfl]
      simp
    rw [this, Nat.add_zero]
  · rw [(trends_statusCounts _ s e).2.1, (trends_statusCounts st s e).2.1,
      hdr, hfil, List.countP_append]
    have : List.countP (fun r => r.day_status == "ORANGE")
        [freshRecord st d now] = 0 := by
      rw [List.countP_cons]
      rw [show ((freshRecord st d now).day_status == "ORANGE") = false from rfl]
      simp
    rw [this, Nat.add_zero]
  · intro p hp
    unfold getProblemDays at hp
    rw [hdr] at hp
    obtain ⟨r, hr, hrp⟩ := List.mem_map.mp hp
    have hrmem := (mem_sortBy _ r _).mp hr
    rw [List.filter_append] at hrmem
    have hnew0 : List.filter (fun r => inRange s e r.date &&
        r.day_status != "GREEN") [freshRecord st d now] = [] := by
      rw [List.filter_cons]
      rw [show (inRange s e (freshRecord st d now).date &&
        (freshRecord st d now).day_status != "GREEN") = false from by
          rw [show ((freshRecord st d now).day_status != "GREEN") = false
            from rfl]
          simp]
      rfl
    rw [hnew0, List.append_nil] at hrmem
    have hrd : r ∈ st.daily_records := List.mem_of_mem_filter hrmem
    have : p.date = r.date := by rw [← hrp]
    rw [this]
    exact hdnotin r hrd

/-- Witness for C10: reading 2025-01-05 on the empty store. -/
theorem claim_C10_lazy_record_creation_witness :
    (getDailyRecord
        (getFullDayData emptyStore "2025-01-05" "t0").1 "2025-01-05" =
      some (freshRecord emptyStore "2025-01-05" "t0")) ∧
    ((getTrendsSummary (getFullDayData emptyStore "2025-01-05" "t0").1
        "2025-01-01" "2025-01-31").totalDays =
      (getTrendsSummary emptyStore "2025-01-01" "2025-01-31").totalDays + 1) :=
  ⟨(claim_C10_lazy_record_creation emptyStore "2025-01-05" "t0"
      "2025-01-01" "2025-01-31" (by decide) (by decide) (by decide)).1,
   (claim_C10_lazy_record_creation emptyStore "2025-01-05" "t0"
      "2025-01-01" "2025-01-31" (by decide) (by decide) (by decide)).2.2.1⟩

theorem getDailyRecord_of_mem {st : Store} {r : DailyRecord}
    (hnd : (st.daily_records.map (fun x => x.date)).Nodup)
    (hr : r ∈ st.daily_records) : getDailyRecord st r.date = some r := by
  unfold getDailyRecord
  rcases hf : st.daily_records.find? (fun x => x.date == r.date) with _ | x
  · exfalso
    have hall := List.find?_eq_none.mp hf r hr
    simp at hall
  · have hx0 := List.find?_some hf
    have hx : x.date = r.date := by simpa using hx0
    have hxm := List.mem_of_find?_eq_some hf
    rw [hf]
    exact congrArg some (List.inj_on_of_nodup_map hnd hxm hr hx)

/-- The issue list of a date whose record is found, by the four parts
`getDayIssues` pushes. -/
theorem getDayIssues_eq {st : Store} {d : String} {r : DailyRecord}
    (hrec : getDailyRecord st d = some r) :
    getDayIssues st d =
      (if r.vomited > 0 then ["Vomit: " ++ toString r.vomited] else []) ++
      (if r.peed = 0 then ["No pee"] else []) ++
      (if r.pooped = 0 then ["No poop"] else []) ++
      ((st.meal_entries.filter (fun m => m.date == d)).filter
        (fun m => m.status != "ate_fully")).map (fun m =>
        "Meal " ++ toString m.meal_slot ++ " (" ++
          mealLabels.getD m.meal_slot "undefined" ++ ") not eaten fully") := by
  unfold getDayIssues
  rw [hrec]

theorem flags_not_green : ∀ hv np nq mm : Bool,
    classifyFlags hv np nq mm ≠ "GREEN" →
    hv = true ∨ np = true ∨ nq = true ∨ mm = true := by decide

theorem classifyFlags_three : ∀ hv np nq mm : Bool,
    classifyFlags hv np nq mm = "RED" ∨
    classifyFlags hv np nq mm = "ORANGE" ∨
    classifyFlags hv np nq mm = "GREEN" := by decide

/-- C8 counterexample: a record written through the repository's
field-merge update carrying a cached ORANGE status over raw counts that
classify GREEN (one pee, one poop, no vomit, no meals) is returned by
`getProblemDays` with an empty issue list — the claim's non-empty-issue
guarantee for every returned ORANGE/RED day fails, and the day's
recomputed classification is not ORANGE or RED at all. -/
theorem claim_C8_problem_days_counterexample :
    getProblemDays (updateDailyRecord emptyStore "2025-01-02"
        { peed := some 1, pooped := some 1, day_status := some "ORANGE" }
        "t0") "2025-01-01" "2025-01-31" =
      [{ date := "2025-01-02", status := "ORANGE", issues := [] }] ∧
    calculateDayStatus 0 1 1 [] = "GREEN" := by decide

/-- C8 as amended: over stores with unique dates whose cached statuses
are fresh (each record's `day_status` equals the classifier on its raw
data), `getProblemDays` returns exactly the in-range dates whose
recomputed classification is ORANGE or RED, newest date first, each
labelled with that classification and annotated from the date's raw
data — the vomit count when positive, "No pee"/"No poop" for zero
counts, one line per not-fully-eaten meal entry with its slot label —
and that issue list is non-empty for every returned day; without the
freshness hypothesis the selection and label follow the stored
`day_status` and the issue list can be empty. -/
theorem claim_C8_problem_days_fresh (st : Store) (s e : String)
    (hnd : (st.daily_records.map (fun r => r.date)).Nodup)
    (hfresh : ∀ r ∈ st.daily_records,
      r.day_status = recomputedStatus st r) :
    (∀ d0 : String, (∃ p ∈ getProblemDays st s e, p.date = d0) ↔
      (∃ r ∈ st.daily_records, r.date = d0 ∧ inRange s e d0 = true ∧
        (recomputedStatus st r = "ORANGE" ∨
          recomputedStatus st r = "RED"))) ∧
    ((getProblemDays st s e).Pairwise
      (fun a b => strLe b.date a.date = true)) ∧
    (∀ p ∈ getProblemDays st s e, ∃ r ∈ st.daily_records,
      r.date = p.date ∧
      p.status = recomputedStatus st r ∧
      (p.status = "ORANGE" ∨ p.status = "RED") ∧
      (0 < r.vomited → ("Vomit: " ++ toString r.vomited) ∈ p.issues) ∧
      (r.peed = 0 → "No pee" ∈ p.issues) ∧
      (r.pooped = 0 → "No poop" ∈ p.issues) ∧
      (∀ m ∈ st.meal_entries, m.date = p.date → m.status ≠ "ate_fully" →
        ("Meal " ++ toString m.meal_slot ++ " (" ++
          mealLabels.getD m.meal_slot "undefined" ++ ") not eaten fully")
          ∈ p.issues) ∧
      p.issues ≠ []) := by
  have hthree : ∀ r : DailyRecord, recomputedStatus st r = "RED" ∨
      recomputedStatus st r = "ORANGE" ∨
      recomputedStatus st r = "GREEN" := by
    intro r
    unfold recomputedStatus
    rw [calculateDayStatus_eq_flags]
    exact classifyFlags_three _ _ _ _
  refine ⟨?_, ?_, ?_⟩
  · intro d0
    constructor
    · rintro ⟨p, hp, hpd⟩
      unfold getProblemDays at hp
      obtain ⟨r, hrs, hrp⟩ := List.mem_map.mp hp
      have hrf := (mem_sortBy _ r _).mp hrs
      have hrmem : r ∈ st.daily_records := List.mem_of_mem_filter hrf
      have hcond := List.of_mem_filter hrf
      rw [Bool.and_eq_true] at hcond
      have hrne : r.day_status ≠ "GREEN" := bne_iff_ne.mp hcond.2
      have hrecne : recomputedStatus st r ≠ "GREEN" :=
        (hfresh r hrmem) ▸ hrne
      have hrdate : r.date = d0 := by
        rw [← hpd, ← hrp]
      refine ⟨r, hrmem, hrdate, hrdate ▸ hcond.1, ?_⟩
      rcases hthree r with h | h | h
      · exact Or.inr h
      · exact Or.inl h
      · exact absurd h hrecne
    · rintro ⟨r, hrmem, hrd0, hin0, hOR⟩
      have hrecne : recomputedStatus st r ≠ "GREEN" := by
        rcases hOR with h | h <;> rw [h] <;> decide
      have hcond : (inRange s e r.date && r.day_status != "GREEN") = true := by
        rw [Bool.and_eq_true]
        exact ⟨hrd0 ▸ hin0, bne_iff_ne.mpr ((hfresh r hrmem) ▸ hrecne)⟩
      have hrf : r ∈ st.daily_records.filter (fun x =>
          inRange s e x.date && x.day_status != "GREEN") :=
        List.mem_filter.mpr ⟨hrmem, hcond⟩
      refine ⟨⟨r.date, r.day_status, getDayIssues st r.date⟩, ?_, hrd0⟩
      unfold getProblemDays
      exact List.mem_map.mpr ⟨r, (mem_sortBy _ r _).mpr hrf, rfl⟩
  · unfold getProblemDays
    have hpw := pairwise_sortBy (fun a b : DailyRecord => strLe b.date a.date)
      (fun a b => strLe_total b.date a.date)
      (fun a b c hab hbc => strLe_trans hbc hab)
      (st.daily_records.filter (fun r =>
        inRange s e r.date && r.day_status != "GREEN"))
    exact List.Pairwise.map _ (fun a b h => h) hpw
  · intro p hp
    unfold getProblemDays at hp
    obtain ⟨r, hrs, hrp⟩ := List.mem_map.mp hp
    have hrf := (mem_sortBy _ r _).mp hrs
    have hrmem : r ∈ st.daily_records := List.mem_of_mem_filter hrf
    have hcond := List.of_mem_filter hrf
    rw [Bool.and_eq_true] at hcond
    have hrne : r.day_status ≠ "GREEN" := bne_iff_ne.mp hcond.2
    have hpdate : p.date = r.date := by rw [← hrp]
    have hpstat : p.status = r.day_status := by rw [← hrp]
    have hpiss : p.issues = getDayIssues st r.date := by rw [← hrp]
    have hrec : getDailyRecord st r.date = some r :=
      getDailyRecord_of_mem hnd hrmem
    have hiss : p.issues =
        (if r.vomited > 0 then ["Vomit: " ++ toString r.vomited] else []) ++
        (if r.peed = 0 then ["No pee"] else []) ++
        (if r.pooped = 0 then ["No poop"] else []) ++
        ((st.meal_entries.filter (fun m => m.date == r.date)).filter
          (fun m => m.status != "ate_fully")).map (fun m =>
          "Meal " ++ toString m.meal_slot ++ " (" ++
            mealLabels.getD m.meal_slot "undefined" ++ ") not eaten fully") := by
      rw [hpiss, getDayIssues_eq hrec]
    have hvm : 0 < r.vomited → ("Vomit: " ++ toString r.vomited) ∈ p.issues := by
      intro hv
      rw [hiss]
      simp [hv]
    have hpm : r.peed = 0 → "No pee" ∈ p.issues := by
      intro h0
      rw [hiss]
      simp [h0]
    have hqm : r.pooped = 0 → "No poop" ∈ p.issues := by
      intro h0
      rw [hiss]
      simp [h0]
    have hmm : ∀ m ∈ st.meal_entries, m.date = p.date →
        m.status ≠ "ate_fully" →
        ("Meal " ++ toString m.meal_slot ++ " (" ++
          mealLabels.getD m.meal_slot "undefined" ++ ") not eaten fully")
          ∈ p.issues := by
      intro m hm hmd hms
      have hm1 : m ∈ st.meal_entries.filter (fun x => x.date == r.date) :=
        List.mem_filter.mpr ⟨hm, beq_iff_eq.mpr (hpdate ▸ hmd)⟩
      have hm2 : m ∈ (st.meal_entries.filter (fun x =>
          x.date == r.date)).filter (fun x => x.status != "ate_fully") :=
        List.mem_filter.mpr ⟨hm1, bne_iff_ne.mpr hms⟩
      rw [hiss]
      exact List.mem_append.mpr (Or.inr (List.mem_map_of_mem _ hm2))
    refine ⟨r, hrmem, hpdate.symm, hpstat.trans (hfresh r hrmem), ?_,
      hvm, hpm, hqm, hmm, ?_⟩
    · rw [hpstat, hfresh r hrmem]
      rcases hthree r with h | h | h
      · exact Or.inr h
      · exact Or.inl h
      · exact absurd h ((hfresh r hrmem) ▸ hrne)
    · have hgne : recomputedStatus st r ≠ "GREEN" :=
        (hfresh r hrmem) ▸ hrne
      have hflags := flags_not_green (decide (r.vomited > 0))
        (r.peed == 0) (r.pooped == 0)
        ((mealStatusesFor st r.date).any (fun x => x != "ate_fully"))
        (by
          intro hgr
          exact hgne (by
            unfold recomputedStatus
            rw [calculateDayStatus_eq_flags]
            exact hgr))
      rcases hflags with h | h | h | h
      · exact List.ne_nil_of_mem (hvm (of_decide_eq_true h))
      · exact List.ne_nil_of_mem (hpm (beq_iff_eq.mp h))
      · exact List.ne_nil_of_mem (hqm (beq_iff_eq.mp h))
      · obtain ⟨s0, hs0, hs0ne⟩ := List.any_eq_true.mp h
        unfold mealStatusesFor at hs0
        obtain ⟨m, hmf, hmst⟩ := List.mem_map.mp hs0
        have hmmem : m ∈ st.meal_entries := List.mem_of_mem_filter hmf
        have hmdate : m.date = p.date := by
          have := List.of_mem_filter hmf
          rw [hpdate]
          exact beq_iff_eq.mp this
        have hmsne : m.status ≠ "ate_fully" := by
          rw [← hmst] at hs0ne
          exact bne_iff_ne.mp hs0ne
        exact List.ne_nil_of_mem (hmm m hmmem hmdate hmsne)

/-- A stored RED day (vomit with no pee), cached freshly. -/
def redDayRecord : DailyRecord :=
  { id := 1, date := "2025-01-01", teeth_brushed := 0,
    teeth_comment := none, vomited := 2, vomited_comment := none,
    peed := 0, peed_comment := none, pooped := 1,
    pooped_comment := none, drank := 0, drank_comment := none,
    daily_notes := none, day_status := "RED",
    created_at := "t0", updated_at := "t0" }

/-- A one-record store holding `redDayRecord`. -/
def redDayStore : Store := ⟨[redDayRecord], [], [], [], [], []⟩

/-- Witness for the amended C8: the stored RED day is reported as a
problem day. -/
theorem claim_C8_problem_days_fresh_witness :
    ∃ p ∈ getProblemDays redDayStore "2025-01-01" "2025-01-31",
      p.date = "2025-01-01" :=
  ((claim_C8_problem_days_fresh redDayStore "2025-01-01" "2025-01-31"
    (by decide) (by decide)).1 "2025-01-01").mpr
    ⟨redDayRecord, by decide, by decide, by decide, by decide⟩

end PetHealth
